import Mathlib

/-!
Shallow embedding of the game-flow reconstruction and charting subsystem of
nba-score-cli (src/index.js: `parseGameClock`, `renderGameFlow`).

JavaScript numbers are IEEE doubles; this embedding uses `ℚ` for the
fractional quantities (seconds, elapsed minutes, normalized time) and `ℤ`/`ℕ`
for integral ones.  On the inputs the claims touch all arithmetic is exact in
both representations.  Score strings are modelled after `parseInt(x) || 0` has
been applied, i.e. as integers.
-/

namespace NbaScoreCli

/-- Numeric value of a digit string, as JS `parseInt` computes it on an
all-digit string (`parseInt('') = NaN` is handled by callers via `|| 0`,
which coincides with the value `0` this returns on `[]`). -/
def digitsVal (l : List Char) : ℕ :=
  l.foldl (fun a c => 10 * a + (c.toNat - 48)) 0

/-- Value of the fractional-digit part after a decimal point. -/
def fracVal (l : List Char) : ℚ :=
  l.foldr (fun c a => (((c.toNat - 48 : ℕ) : ℚ) + a) / 10) 0

def isDigitOrDot (c : Char) : Bool := c.isDigit || c == '.'

/-- JS `parseFloat` restricted to strings over digits and dots (the only
shapes the clock code feeds it): the longest prefix `digits ('.' digits)?`
is taken; `none` models `NaN`. -/
def jsParseFloat (l : List Char) : Option ℚ :=
  let intP := l.takeWhile Char.isDigit
  let rest := l.dropWhile Char.isDigit
  match rest with
  | '.' :: r =>
      let frac := r.takeWhile Char.isDigit
      if intP.isEmpty && frac.isEmpty then none
      else some ((digitsVal intP : ℚ) + fracVal frac)
  | _ => if intP.isEmpty then none else some ((digitsVal intP : ℚ))

/-- Attempt to match the regex `PT(\d+)M([\d.]+)S` at the head of the list,
returning the two capture groups.  Greedy `\d+` / `[\d.]+` need no
backtracking because the following literal is outside the class. -/
def isoMatchAt (l : List Char) : Option (List Char × List Char) :=
  match l with
  | 'P' :: 'T' :: rest =>
      let ds := rest.takeWhile Char.isDigit
      if ds.isEmpty then none
      else
        match rest.dropWhile Char.isDigit with
        | 'M' :: r2 =>
            let fs := r2.takeWhile isDigitOrDot
            if fs.isEmpty then none
            else
              match r2.dropWhile isDigitOrDot with
              | 'S' :: _ => some (ds, fs)
              | _ => none
        | _ => none
  | _ => none

/-- JS `str.match(/PT(\d+)M([\d.]+)S/)`: scan left to right for the first
position where the pattern matches. -/
def isoMatch : List Char → Option (List Char × List Char)
  | [] => none
  | c :: rest => (isoMatchAt (c :: rest)) <|> isoMatch rest

structure GameClock where
  minutes : ℕ
  seconds : ℚ
deriving DecidableEq, Repr

/-- JS `'...'.split(':')` on a char list (so `[] ↦ [[]]`, matching
`''.split(':') === ['']`). -/
def splitCh : List Char → List (List Char)
  | [] => [[]]
  | c :: rest =>
      if c = ':' then [] :: splitCh rest
      else
        match splitCh rest with
        | h :: t => (c :: h) :: t
        | [] => [[c]]

/-- src/index.js `parseGameClock` (lines 924-935): try the ISO duration
regex, then a `MM:SS` shape after stripping non-digit, non-colon chars,
else degrade to zero.  The empty string is falsy in JS, hence the first
guard. -/
def parseGameClock (clockStr : String) : GameClock :=
  if clockStr = "" then ⟨0, 0⟩
  else
    match isoMatch clockStr.toList with
    | some (ds, fs) => ⟨digitsVal ds, (jsParseFloat fs).getD 0⟩
    | none =>
        let cleaned := clockStr.toList.filter (fun c => c.isDigit || c == ':')
        match splitCh cleaned with
        | [p0, p1] => ⟨digitsVal p0, (jsParseFloat p1).getD 0⟩
        | _ => ⟨0, 0⟩

/-- The inline clock handling of `renderGameFlow` (lines 1334-1341):
`minutesLeft`/`secondsLeft` default to 12 and 0 when the ISO regex does not
match; a missing clock falls back to the literal `'PT12M00.00S'`. -/
def clockMinSec (clock : Option String) : ℕ × ℚ :=
  let c := clock.getD ("PT12M00.00S")
  match isoMatch c.toList with
  | some (ds, fs) => (digitsVal ds, (jsParseFloat fs).getD 0)
  | none => (12, 0)

/-- JS `action.period || 1`. -/
def effPeriod (p : ℕ) : ℕ := if p = 0 then 1 else p

/-- Elapsed game minutes of an action:
`(period-1)*12 + (12 - minutesLeft - secondsLeft/60)`. -/
def elapsedOf (p : ℕ) (clock : Option String) : ℚ :=
  let ms := clockMinSec clock
  ((effPeriod p : ℚ) - 1) * 12 + (12 - (ms.1 : ℚ) - ms.2 / 60)

/-- JS `Math.floor(totalMinutesElapsed)`, the minute bucket key. -/
def minuteKeyOf (p : ℕ) (clock : Option String) : ℤ := ⌊elapsedOf p clock⌋

/-- One play-by-play action.  `scoreHome`/`scoreAway` are `some v` when the
field is not `undefined`, with `parseInt(..) || 0` already applied; `period`
is the raw number (`0` triggers the `|| 1` default). -/
structure PlayAction where
  period : ℕ
  clock : Option String
  scoreHome : Option ℤ
  scoreAway : Option ℤ
deriving DecidableEq, Repr

/-- State of the event scan: the bucket writes in order (a JS `Map.set`
overwrites, so lookups take the last write), the lead-change count and the
last nonzero differential. -/
structure ScanState where
  buckets : List (ℤ × ℤ)
  leadChanges : ℕ
  lastLead : ℤ
deriving DecidableEq, Repr

/-- One iteration of the event loop of `renderGameFlow` (lines 1325-1356):
actions missing either score are skipped entirely. -/
def scanStep (st : ScanState) (a : PlayAction) : ScanState :=
  match a.scoreHome, a.scoreAway with
  | some h, some aw =>
      let diff := h - aw
      { buckets := st.buckets ++ [(minuteKeyOf a.period a.clock, diff)]
        leadChanges :=
          if (0 < st.lastLead ∧ diff < 0) ∨ (st.lastLead < 0 ∧ 0 < diff) then
            st.leadChanges + 1
          else st.leadChanges
        lastLead := if diff = 0 then st.lastLead else diff }
  | _, _ => st

def scanActions (actions : List PlayAction) : ScanState :=
  actions.foldl scanStep ⟨[], 0, 0⟩

/-- JS `rawMinuteData.get(k)`: the value of the last write to key `k`. -/
def lookupLast (l : List (ℤ × ℤ)) (k : ℤ) : Option ℤ :=
  (l.filter (fun p => p.1 == k)).getLast?.map (fun p => p.2)

/-- JS `Math.max(...Array.from(rawMinuteData.keys()), 0)`. -/
def maxKey (l : List (ℤ × ℤ)) : ℤ := l.foldl (fun m p => max m p.1) 0

/-- One sample of the differential series: the code's
`{ time, diff, minute }` objects; the initial baseline push has no `minute`
field, hence the `Option`. -/
structure Sample where
  time : ℚ
  diff : ℤ
  minute : Option ℕ
deriving DecidableEq, Repr

/-- The gap-fill loop (lines 1366-1372): `k` iterations starting at minute
`m`, carrying the last seen differential `cur` forward through unbucketed
minutes. -/
def fillGo (b : List (ℤ × ℤ)) (T : ℕ) : ℕ → ℤ → ℕ → List Sample
  | _, _, 0 => []
  | m, cur, k + 1 =>
      let d := (lookupLast b (m : ℤ)).getD cur
      ⟨(m : ℚ) / (T : ℚ), d, some m⟩ :: fillGo b T (m + 1) d k

/-- JS `Math.max(4, game.homeTeam.periods?.length || 4)`. -/
def numPeriodsOf (plen : Option ℕ) : ℕ :=
  max 4 (match plen with | none => 4 | some 0 => 4 | some n => n)

def totalMinutesOf (plen : Option ℕ) : ℕ := numPeriodsOf plen * 12

/-- The `endMinute` bound: the nominal total for a final game (`gameStatus === 3`),
else the largest observed bucket key. -/
def endMinuteOf (status : ℕ) (plen : Option ℕ) (actions : List PlayAction) : ℤ :=
  if status = 3 then (totalMinutesOf plen : ℤ)
  else maxKey (scanActions actions).buckets

/-- The timeline-reconstruction half of `renderGameFlow` (lines 1307-1376):
from the game status, the length of `homeTeam.periods` (`none` when absent)
and the play-by-play (`none` models a null/missing `actions`), produce the
differential series and the lead-change count. -/
def reconstruct (status : ℕ) (plen : Option ℕ) (pbp : Option (List PlayAction)) :
    List Sample × ℕ :=
  let base : Sample := ⟨0, 0, none⟩
  match pbp with
  | none => ([base, ⟨0, 0, some 0⟩], 0)
  | some actions =>
      let st := scanActions actions
      let T := totalMinutesOf plen
      let rest := fillGo st.buckets T 0 0 ((endMinuteOf status plen actions).toNat + 1)
      (base :: rest, st.leadChanges)

/-! Chart rasterizer (lines 1379-1418). -/

/-- JS `Math.max(...diffs, 0)`. -/
def dataMaxOf (ds : List ℤ) : ℤ := ds.foldl max 0

/-- JS `Math.min(...diffs, 0)`. -/
def dataMinOf (ds : List ℤ) : ℤ := ds.foldl min 0

def maxAbsOf (ds : List ℤ) : ℤ := max |dataMaxOf ds| |dataMinOf ds|

/-- JS `maxAbsDiff > 20 ? 4 : 2`. -/
def intervalOf (ds : List ℤ) : ℤ := if 20 < maxAbsOf ds then 4 else 2

/-- JS `Math.ceil(Math.max(dataMax, 1) / interval) * interval`. -/
def yMaxOf (ds : List ℤ) : ℤ :=
  ⌈(max (dataMaxOf ds) 1 : ℚ) / (intervalOf ds : ℚ)⌉ * intervalOf ds

/-- JS `Math.floor(Math.min(dataMin, -1) / interval) * interval`. -/
def yMinOf (ds : List ℤ) : ℤ :=
  ⌊(min (dataMinOf ds) (-1) : ℚ) / (intervalOf ds : ℚ)⌋ * intervalOf ds

/-- The grid height `chartHeight = (yMax - yMin) / interval + 1` (the division is exact). -/
def chartHeightOf (ds : List ℤ) : ℤ :=
  (yMaxOf ds - yMinOf ds) / intervalOf ds + 1

/-- The baseline row `yZero = yMax / interval` (exact). -/
def yZeroOf (ds : List ℤ) : ℤ := yMaxOf ds / intervalOf ds

/-- JS `Math.floor(Math.min(boxWidth - 15, totalGameMinutes * 1.8))`. -/
def chartWidthOf (boxWidth : ℤ) (T : ℕ) : ℤ :=
  ⌊min ((boxWidth : ℚ) - 15) ((T : ℚ) * (9 / 5))⌋

/-- The column `x = Math.floor(data.time * (chartWidth - 1))`. -/
def xOf (cols : ℤ) (s : Sample) : ℤ := ⌊s.time * ((cols : ℚ) - 1)⌋

/-- JS `Math.round(data.diff / interval) * interval`. -/
def normDiffOf (i d : ℤ) : ℤ := round ((d : ℚ) / (i : ℚ)) * i

/-- The row `y = (yMax - normalizedDiff) / interval` (exact). -/
def yOfD (yM i d : ℤ) : ℤ := (yM - normDiffOf i d) / i

def circ : Char := '○'

def emptyGrid : ℤ → ℤ → Char := fun _ _ => ' '

/-- Plot one sample: inside bounds, the whole column `x` is cleared and the
single cell `(y, x)` receives the glyph; out of bounds nothing happens. -/
def plotOne (rows cols yM i : ℤ) (g : ℤ → ℤ → Char) (s : Sample) : ℤ → ℤ → Char :=
  if 0 ≤ yOfD yM i s.diff ∧ yOfD yM i s.diff < rows ∧
      0 ≤ xOf cols s ∧ xOf cols s < cols then
    fun r c => if c = xOf cols s then (if r = yOfD yM i s.diff then circ else ' ')
               else g r c
  else g

def plotAll (rows cols yM i : ℤ) (series : List Sample) : ℤ → ℤ → Char :=
  series.foldl (plotOne rows cols yM i) emptyGrid

structure ChartResult where
  grid : ℤ → ℤ → Char
  rows : ℤ
  cols : ℤ

/-- The rasterizing half of `renderGameFlow`: scale selection, width
selection, grid allocation and plotting.  `new Array(chartWidth)` throws a
`RangeError` for a negative length, modelled as `none`. -/
def rasterize (series : List Sample) (boxWidth : ℤ) (T : ℕ) : Option ChartResult :=
  let ds := series.map Sample.diff
  let w := chartWidthOf boxWidth T
  if w < 0 then none
  else
    some ⟨plotAll (chartHeightOf ds) w (yMaxOf ds) (intervalOf ds) series,
          chartHeightOf ds, w⟩

/-! ### Helper lemmas about the scale computation -/

lemma le_foldl_max (l : List ℤ) (a : ℤ) : a ≤ l.foldl max a := by
  induction l generalizing a with
  | nil => exact le_refl a
  | cons x t ih => exact le_trans (le_max_left a x) (ih (max a x))

lemma mem_le_foldl_max (l : List ℤ) (a : ℤ) {x : ℤ} (hx : x ∈ l) :
    x ≤ l.foldl max a := by
  induction l generalizing a with
  | nil => cases hx
  | cons y t ih =>
    rcases List.mem_cons.mp hx with rfl | h
    · exact le_trans (le_max_right a x) (le_foldl_max t (max a x))
    · exact ih (max a y) h

lemma foldl_min_le (l : List ℤ) (a : ℤ) : l.foldl min a ≤ a := by
  induction l generalizing a with
  | nil => exact le_refl a
  | cons x t ih => exact le_trans (ih (min a x)) (min_le_left a x)

lemma foldl_min_le_mem (l : List ℤ) (a : ℤ) {x : ℤ} (hx : x ∈ l) :
    l.foldl min a ≤ x := by
  induction l generalizing a with
  | nil => cases hx
  | cons y t ih =>
    rcases List.mem_cons.mp hx with rfl | h
    · exact le_trans (foldl_min_le t (min a x)) (min_le_right a x)
    · exact ih (min a y) h

lemma mem_le_dataMax {ds : List ℤ} {d : ℤ} (h : d ∈ ds) : d ≤ dataMaxOf ds :=
  mem_le_foldl_max ds 0 h

lemma dataMin_le_mem {ds : List ℤ} {d : ℤ} (h : d ∈ ds) : dataMinOf ds ≤ d :=
  foldl_min_le_mem ds 0 h

lemma intervalOf_pos (ds : List ℤ) : 0 < intervalOf ds := by
  unfold intervalOf; split <;> norm_num

lemma intervalOf_pos_q (ds : List ℤ) : (0 : ℚ) < (intervalOf ds : ℚ) := by
  exact_mod_cast intervalOf_pos ds

lemma round_le_ceil_q (x : ℚ) : round x ≤ ⌈x⌉ := by
  rw [round_eq]
  have h1 : x + 1 / 2 ≤ (⌈x⌉ : ℚ) + 1 / 2 := by
    have := Int.le_ceil x; linarith
  have h2 : ⌊(1 / 2 : ℚ)⌋ = 0 := by norm_num
  calc ⌊x + 1 / 2⌋ ≤ ⌊(⌈x⌉ : ℚ) + 1 / 2⌋ := Int.floor_le_floor h1
    _ = ⌈x⌉ + ⌊(1 / 2 : ℚ)⌋ := Int.floor_int_add _ _
    _ = ⌈x⌉ := by rw [h2, add_zero]

lemma floor_le_round_q (x : ℚ) : ⌊x⌋ ≤ round x := by
  rw [round_eq]
  exact Int.floor_le_floor (by linarith)

lemma yCeil_pos (ds : List ℤ) :
    0 < ⌈(max (dataMaxOf ds) 1 : ℚ) / (intervalOf ds : ℚ)⌉ := by
  apply Int.ceil_pos.mpr
  exact div_pos (lt_of_lt_of_le one_pos (le_max_right _ _)) (intervalOf_pos_q ds)

lemma yFloor_neg (ds : List ℤ) :
    ⌊(min (dataMinOf ds) (-1) : ℚ) / (intervalOf ds : ℚ)⌋ < 0 := by
  have h1 : (min (dataMinOf ds) (-1) : ℚ) < 0 :=
    lt_of_le_of_lt (min_le_right _ _) (by norm_num)
  have h3 := div_neg_of_neg_of_pos h1 (intervalOf_pos_q ds)
  exact Int.floor_lt.mpr (by exact_mod_cast h3)

lemma intervalOf_le_yMaxOf (ds : List ℤ) : intervalOf ds ≤ yMaxOf ds := by
  unfold yMaxOf
  exact le_mul_of_one_le_left (le_of_lt (intervalOf_pos ds)) (yCeil_pos ds)

lemma yMaxOf_pos (ds : List ℤ) : 0 < yMaxOf ds :=
  lt_of_lt_of_le (intervalOf_pos ds) (intervalOf_le_yMaxOf ds)

lemma yMinOf_le_neg_interval (ds : List ℤ) : yMinOf ds ≤ -intervalOf ds := by
  unfold yMinOf
  have hm : ⌊(min (dataMinOf ds) (-1) : ℚ) / (intervalOf ds : ℚ)⌋ ≤ -1 := by
    have := yFloor_neg ds; omega
  calc ⌊(min (dataMinOf ds) (-1) : ℚ) / (intervalOf ds : ℚ)⌋ * intervalOf ds
      ≤ -1 * intervalOf ds :=
        mul_le_mul_of_nonneg_right hm (le_of_lt (intervalOf_pos ds))
    _ = -intervalOf ds := by ring

lemma yMinOf_neg (ds : List ℤ) : yMinOf ds < 0 :=
  lt_of_le_of_lt (yMinOf_le_neg_interval ds)
    (neg_neg_of_pos (intervalOf_pos ds))

lemma normDiff_le_yMax {ds : List ℤ} {d : ℤ} (h : d ∈ ds) :
    normDiffOf (intervalOf ds) d ≤ yMaxOf ds := by
  unfold normDiffOf yMaxOf
  apply mul_le_mul_of_nonneg_right _ (le_of_lt (intervalOf_pos ds))
  calc round ((d : ℚ) / (intervalOf ds : ℚ))
      ≤ ⌈(d : ℚ) / (intervalOf ds : ℚ)⌉ := round_le_ceil_q _
    _ ≤ ⌈(max (dataMaxOf ds) 1 : ℚ) / (intervalOf ds : ℚ)⌉ := by
        apply Int.ceil_le_ceil
        apply (div_le_div_iff_of_pos_right (intervalOf_pos_q ds)).mpr
        exact le_trans (Int.cast_le.mpr (mem_le_dataMax h)) (le_max_left _ _)

lemma yMin_le_normDiff {ds : List ℤ} {d : ℤ} (h : d ∈ ds) :
    yMinOf ds ≤ normDiffOf (intervalOf ds) d := by
  unfold normDiffOf yMinOf
  apply mul_le_mul_of_nonneg_right _ (le_of_lt (intervalOf_pos ds))
  calc ⌊(min (dataMinOf ds) (-1) : ℚ) / (intervalOf ds : ℚ)⌋
      ≤ ⌊(d : ℚ) / (intervalOf ds : ℚ)⌋ := by
        apply Int.floor_le_floor
        apply (div_le_div_iff_of_pos_right (intervalOf_pos_q ds)).mpr
        exact le_trans (min_le_left _ _) (Int.cast_le.mpr (dataMin_le_mem h))
    _ ≤ round ((d : ℚ) / (intervalOf ds : ℚ)) := floor_le_round_q _

lemma yOfD_eq_sub (ds : List ℤ) (d : ℤ) :
    yOfD (yMaxOf ds) (intervalOf ds) d =
      ⌈(max (dataMaxOf ds) 1 : ℚ) / (intervalOf ds : ℚ)⌉ -
        round ((d : ℚ) / (intervalOf ds : ℚ)) := by
  unfold yOfD yMaxOf normDiffOf
  rw [← sub_mul]
  exact Int.mul_ediv_cancel _ (ne_of_gt (intervalOf_pos ds))

lemma chartHeightOf_eq (ds : List ℤ) :
    chartHeightOf ds =
      ⌈(max (dataMaxOf ds) 1 : ℚ) / (intervalOf ds : ℚ)⌉ -
        ⌊(min (dataMinOf ds) (-1) : ℚ) / (intervalOf ds : ℚ)⌋ + 1 := by
  unfold chartHeightOf yMaxOf yMinOf
  rw [← sub_mul]
  rw [Int.mul_ediv_cancel _ (ne_of_gt (intervalOf_pos ds))]

lemma yZeroOf_eq (ds : List ℤ) :
    yZeroOf ds = ⌈(max (dataMaxOf ds) 1 : ℚ) / (intervalOf ds : ℚ)⌉ := by
  unfold yZeroOf yMaxOf
  exact Int.mul_ediv_cancel _ (ne_of_gt (intervalOf_pos ds))

lemma yOfD_bounds {ds : List ℤ} {d : ℤ} (h : d ∈ ds) :
    0 ≤ yOfD (yMaxOf ds) (intervalOf ds) d ∧
      yOfD (yMaxOf ds) (intervalOf ds) d < chartHeightOf ds := by
  have hup := normDiff_le_yMax h
  have hlo := yMin_le_normDiff h
  have hi := intervalOf_pos ds
  rw [yOfD_eq_sub, chartHeightOf_eq]
  constructor
  · have : round ((d : ℚ) / (intervalOf ds : ℚ)) ≤
        ⌈(max (dataMaxOf ds) 1 : ℚ) / (intervalOf ds : ℚ)⌉ := by
      have := hup
      unfold normDiffOf yMaxOf at this
      exact le_of_mul_le_mul_right this hi
    omega
  · have : ⌊(min (dataMinOf ds) (-1) : ℚ) / (intervalOf ds : ℚ)⌋ ≤
        round ((d : ℚ) / (intervalOf ds : ℚ)) := by
      have := hlo
      unfold normDiffOf yMinOf at this
      exact le_of_mul_le_mul_right this hi
    omega

/-! ### Helper lemmas about the reconstruction -/

lemma fillGo_length (b : List (ℤ × ℤ)) (T : ℕ) :
    ∀ (k m : ℕ) (cur : ℤ), (fillGo b T m cur k).length = k := by
  intro k
  induction k with
  | zero => intro m cur; rfl
  | succ n ih => intro m cur; simp [fillGo, ih]

lemma fillGo_minute (b : List (ℤ × ℤ)) (T : ℕ) :
    ∀ (k i m : ℕ) (cur : ℤ), i < k →
      ((fillGo b T m cur k).getD i ⟨0, 0, none⟩).minute = some (m + i) := by
  intro k
  induction k with
  | zero => intro i m cur h; exact absurd h (Nat.not_lt_zero i)
  | succ n ih =>
    intro i m cur h
    cases i with
    | zero => simp [fillGo]
    | succ j =>
      have hj := ih j (m + 1) ((lookupLast b (m : ℤ)).getD cur) (by omega)
      simpa [fillGo, Nat.add_assoc, Nat.add_comm 1 j] using hj

lemma fillGo_nil_diff (T : ℕ) :
    ∀ (k m : ℕ) (cur : ℤ), ∀ s ∈ fillGo [] T m cur k, s.diff = cur := by
  intro k
  induction k with
  | zero => intro m cur s hs; cases hs
  | succ n ih =>
    intro m cur s hs
    rcases List.mem_cons.mp hs with rfl | hs
    · rfl
    · simpa [lookupLast] using ih (m + 1) ((lookupLast [] (m : ℤ)).getD cur) s hs

/-! ### Claim C1 -/

unseal Rat.mul Rat.inv Rat.add Rat.sub in
/-- C1 counterexample: with an empty event list the reconstructor does NOT
return the 1-element baseline series: it returns 2 samples for a non-final
game (and 50 for a final 4-period game), while a null play-by-play always
gives 2 samples — so null and empty are not treated identically for the
final status either. -/
theorem C1_cex :
    (reconstruct 2 none (some [])).1.length ≠ 1 ∧
    reconstruct 3 none (some []) ≠ reconstruct 3 none none ∧
    (reconstruct 2 none (some [])).1.length = 2 ∧
    (reconstruct 3 none (some [])).1.length = 50 ∧
    (reconstruct 3 none none).1.length = 2 := by decide

/-- C1 amended: a null play-by-play, and an empty event list for a non-final
game, both yield the 2-sample all-zero series (a baseline sample without a
minute field followed by the minute-0 sample) with `leadChanges = 0`; an
empty event list for a final game instead yields `totalMinutes + 2` samples,
all with diff 0, still with `leadChanges = 0`. -/
theorem C1_degraded :
    (∀ status plen, reconstruct status plen none =
        ([⟨0, 0, none⟩, ⟨0, 0, some 0⟩], 0)) ∧
    (∀ status plen, status ≠ 3 → reconstruct status plen (some []) =
        ([⟨0, 0, none⟩, ⟨0, 0, some 0⟩], 0)) ∧
    (∀ plen, (reconstruct 3 plen (some [])).1.length = totalMinutesOf plen + 2 ∧
       (∀ s ∈ (reconstruct 3 plen (some [])).1, s.diff = 0) ∧
       (reconstruct 3 plen (some [])).2 = 0) := by
  refine ⟨fun status plen => rfl, ?_, ?_⟩
  · intro status plen h
    have h1 : (endMinuteOf status plen []).toNat + 1 = 1 := by
      unfold endMinuteOf maxKey scanActions
      rw [if_neg h]
      rfl
    have h2 : reconstruct status plen (some []) =
        (Sample.mk 0 0 none ::
          fillGo (scanActions []).buckets (totalMinutesOf plen) 0 0
            ((endMinuteOf status plen []).toNat + 1),
         (scanActions []).leadChanges) := rfl
    rw [h2, h1]
    simp [fillGo, scanActions, lookupLast, zero_div]
  · intro plen
    have h1 : (endMinuteOf 3 plen []).toNat = totalMinutesOf plen := by
      unfold endMinuteOf
      rw [if_pos rfl, Int.toNat_natCast]
    refine ⟨?_, ?_, rfl⟩
    · show (Sample.mk 0 0 none ::
        fillGo (scanActions []).buckets (totalMinutesOf plen) 0 0
          ((endMinuteOf 3 plen []).toNat + 1)).length = totalMinutesOf plen + 2
      rw [List.length_cons, fillGo_length, h1]
    · intro s hs
      rcases List.mem_cons.mp hs with rfl | hs
      · rfl
      · exact fillGo_nil_diff (totalMinutesOf plen) _ 0 0 s hs

/-- C1 witness: the amended statement at a concrete non-final input. -/
theorem C1_witness :
    reconstruct 2 (some 4) (some []) = ([⟨0, 0, none⟩, ⟨0, 0, some 0⟩], 0) :=
  C1_degraded.2.1 2 (some 4) (by decide)

/-! ### Claim C2 -/

unseal Rat.mul Rat.inv Rat.add Rat.sub in
/-- C2 counterexample: for a concrete 2-event input with `endMinute = 2` the
series has 4 samples, not `endMinute + 1 = 3`, and the sample at index 1 has
`minute = some 0`, not 1 — the dense minutes sit at indices `1..endMinute+1`,
shifted by the extra baseline sample at index 0. -/
theorem C2_cex :
    endMinuteOf 2 none
        [⟨1, some ("PT11M30.00S"), some 2, some 0⟩,
         ⟨1, some ("PT10M00.00S"), some 2, some 5⟩] = 2 ∧
    (reconstruct 2 none (some [⟨1, some ("PT11M30.00S"), some 2, some 0⟩,
        ⟨1, some ("PT10M00.00S"), some 2, some 5⟩])).1.length ≠ 2 + 1 ∧
    ((reconstruct 2 none (some [⟨1, some ("PT11M30.00S"), some 2, some 0⟩,
        ⟨1, some ("PT10M00.00S"), some 2, some 5⟩])).1.getD 1
          ⟨0, 0, none⟩).minute ≠ some 1 := by decide

/-- C2 amended: the series has exactly `endMinute + 2` samples and the
sample at index `i + 1` has `elapsedMinutes = i` for every
`i ∈ [0, endMinute]` (index 0 is the extra minute-less baseline sample). -/
theorem C2_shifted :
    ∀ status plen actions,
      (reconstruct status plen (some actions)).1.length =
        (endMinuteOf status plen actions).toNat + 2 ∧
      ∀ i : ℕ, i ≤ (endMinuteOf status plen actions).toNat →
        ((reconstruct status plen (some actions)).1.getD (i + 1)
          ⟨0, 0, none⟩).minute = some i := by
  intro status plen actions
  constructor
  · show (Sample.mk 0 0 none ::
      fillGo (scanActions actions).buckets (totalMinutesOf plen) 0 0
        ((endMinuteOf status plen actions).toNat + 1)).length = _
    rw [List.length_cons, fillGo_length]
  · intro i hi
    show ((Sample.mk 0 0 none ::
      fillGo (scanActions actions).buckets (totalMinutesOf plen) 0 0
        ((endMinuteOf status plen actions).toNat + 1)).getD (i + 1)
          ⟨0, 0, none⟩).minute = some i
    rw [List.getD_cons_succ]
    have := fillGo_minute (scanActions actions).buckets (totalMinutesOf plen)
      ((endMinuteOf status plen actions).toNat + 1) i 0 0 (by omega)
    simpa using this

unseal Rat.mul Rat.inv Rat.add Rat.sub in
/-- C2 witness: the amended indexing at the concrete 2-event input. -/
theorem C2_witness :
    ((reconstruct 2 none (some [⟨1, some ("PT11M30.00S"), some 2, some 0⟩,
        ⟨1, some ("PT10M00.00S"), some 2, some 5⟩])).1.getD 2
          ⟨0, 0, none⟩).minute = some 1 :=
  (C2_shifted 2 none [⟨1, some ("PT11M30.00S"), some 2, some 0⟩,
      ⟨1, some ("PT10M00.00S"), some 2, some 5⟩]).2 1 (by decide)

/-! ### Claim C4 -/

unseal Rat.mul Rat.inv Rat.add Rat.sub in
/-- C4: the synthetic 2-event play-by-play puts diff +2 in bucket 0 and
diff -3 in bucket 2, and the reconstructed series carries +2 forward into
minute 1 (so the minute-0, minute-1, minute-2 samples read +2, +2, -3). -/
theorem C4_round_trip :
    (scanActions [⟨1, some ("PT11M30.00S"), some 2, some 0⟩,
        ⟨1, some ("PT10M00.00S"), some 2, some 5⟩]).buckets = [(0, 2), (2, -3)] ∧
    reconstruct 2 none (some [⟨1, some ("PT11M30.00S"), some 2, some 0⟩,
        ⟨1, some ("PT10M00.00S"), some 2, some 5⟩]) =
      ([⟨0, 0, none⟩, ⟨0, 2, some 0⟩, ⟨1/48, 2, some 1⟩, ⟨1/24, -3, some 2⟩],
       1) := by decide

/-! ### Claim C6 -/

unseal Rat.mul Rat.inv Rat.add Rat.sub in
/-- C6 counterexample: in the C4 scenario the minute-0 sample (index 1) has
diff +2, not 0 — an event falling into bucket 0 overrides the pre-game
baseline for the minute-0 sample. -/
theorem C6_cex :
    ((reconstruct 2 none (some [⟨1, some ("PT11M30.00S"), some 2, some 0⟩,
        ⟨1, some ("PT10M00.00S"), some 2, some 5⟩])).1.getD 1
          ⟨0, 0, none⟩).minute = some 0 ∧
    ((reconstruct 2 none (some [⟨1, some ("PT11M30.00S"), some 2, some 0⟩,
        ⟨1, some ("PT10M00.00S"), some 2, some 5⟩])).1.getD 1
          ⟨0, 0, none⟩).diff ≠ 0 := by decide

/-- C6 amended: the index-0 baseline sample always has diff 0 (and no
minute field), while the minute-0 sample at index 1 takes the bucket-0
value when a bucket-0 event exists and defaults to 0 otherwise. -/
theorem C6_baseline :
    (∀ status plen pbp,
        (reconstruct status plen pbp).1.getD 0 ⟨1, 1, none⟩ = ⟨0, 0, none⟩) ∧
    (∀ status plen actions,
        ((reconstruct status plen (some actions)).1.getD 1 ⟨0, 0, none⟩).diff =
          (lookupLast (scanActions actions).buckets 0).getD 0) := by
  constructor
  · intro status plen pbp
    cases pbp <;> rfl
  · intro status plen actions
    rfl

/-! ### Claim C3 -/

/-- The differentials of the actions that carry both scores, in event
order (the sequence the lead-change logic consumes). -/
def eventDiffs (actions : List PlayAction) : List ℤ :=
  actions.filterMap (fun a =>
    match a.scoreHome, a.scoreAway with
    | some h, some aw => some (h - aw)
    | _, _ => none)

/-- Number of adjacent sign flips in a list (all elements are meant to be
nonzero, where opposite sign is the same as negative product). -/
def countFlips : List ℤ → ℕ
  | a :: b :: t => (if a * b < 0 then 1 else 0) + countFlips (b :: t)
  | _ => 0

/-- Stated from the spec's words: the number of strict sign flips of the
nonzero running differential (transitions through 0 that do not reverse
the sign are ignored). -/
def signFlips (l : List ℤ) : ℕ := countFlips (l.filter (fun d => d != 0))

lemma scanStep_lead (actions : List PlayAction) :
    ∀ st : ScanState,
      (actions.foldl scanStep st).leadChanges =
        st.leadChanges +
          (if st.lastLead = 0 then signFlips (eventDiffs actions)
           else countFlips
             (st.lastLead :: (eventDiffs actions).filter (fun d => d != 0))) := by
  induction actions with
  | nil =>
    intro st
    by_cases h : st.lastLead = 0 <;>
      simp [eventDiffs, signFlips, countFlips, h]
  | cons a rest ih =>
    intro st
    match ha : a.scoreHome, hw : a.scoreAway with
    | none, _ =>
      have hstep : scanStep st a = st := by unfold scanStep; rw [ha]
      have hd : eventDiffs (a :: rest) = eventDiffs rest := by
        unfold eventDiffs
        rw [List.filterMap_cons]
        rw [ha]
      rw [List.foldl_cons, hstep, hd]
      exact ih st
    | some h, none =>
      have hstep : scanStep st a = st := by unfold scanStep; rw [ha, hw]
      have hd : eventDiffs (a :: rest) = eventDiffs rest := by
        unfold eventDiffs
        rw [List.filterMap_cons]
        rw [ha, hw]
      rw [List.foldl_cons, hstep, hd]
      exact ih st
    | some h, some aw =>
      have hd : eventDiffs (a :: rest) = (h - aw) :: eventDiffs rest := by
        unfold eventDiffs
        rw [List.filterMap_cons]
        rw [ha, hw]
      have hstep : scanStep st a =
          ⟨st.buckets ++ [(minuteKeyOf a.period a.clock, h - aw)],
           if (0 < st.lastLead ∧ h - aw < 0) ∨ (st.lastLead < 0 ∧ 0 < h - aw) then
             st.leadChanges + 1 else st.leadChanges,
           if h - aw = 0 then st.lastLead else h - aw⟩ := by
        unfold scanStep; rw [ha, hw]
      rw [List.foldl_cons, hstep, ih, hd]
      generalize h - aw = d
      by_cases hzero : d = 0
      · subst hzero
        by_cases hL : st.lastLead = 0 <;>
          simp [hL, signFlips, List.filter_cons]
      · have hfilter : ((d :: eventDiffs rest).filter (fun x => x != 0)) =
            d :: (eventDiffs rest).filter (fun x => x != 0) := by
          simp [List.filter_cons, hzero]
        by_cases hL : st.lastLead = 0
        · simp [hzero, hL, signFlips, hfilter]
        · have hstep2 : countFlips (st.lastLead :: d ::
              (eventDiffs rest).filter (fun x => x != 0)) =
              (if st.lastLead * d < 0 then 1 else 0) +
                countFlips (d :: (eventDiffs rest).filter (fun x => x != 0)) := rfl
          simp only [if_neg hL, if_neg hzero, signFlips, hfilter, hstep2]
          by_cases hf : (0 < st.lastLead ∧ d < 0) ∨ (st.lastLead < 0 ∧ 0 < d)
          · rw [if_pos hf, if_pos (mul_neg_iff.mpr hf)]
            omega
          · rw [if_neg hf, if_neg (fun hc => hf (mul_neg_iff.mp hc))]
            omega

unseal Rat.mul Rat.inv Rat.add Rat.sub in
/-- C3: the reconstructor's lead-change count equals the number of strict
sign flips of the nonzero running differential of the (score-carrying)
events, for every event sequence; in particular a sequence realizing the
diffs [0, 3, -2, -5, 4] yields leadChanges = 2. -/
theorem C3_lead_changes :
    (∀ status plen actions,
        (reconstruct status plen (some actions)).2 =
          signFlips (eventDiffs actions)) ∧
    (reconstruct 2 none (some
        [⟨1, none, some 0, some 0⟩, ⟨1, none, some 3, some 0⟩,
         ⟨1, none, some 0, some 2⟩, ⟨1, none, some 0, some 5⟩,
         ⟨1, none, some 4, some 0⟩])).2 = 2 ∧
    signFlips [0, 3, -2, -5, 4] = 2 := by
  refine ⟨?_, by decide, by decide⟩
  intro status plen actions
  have h := scanStep_lead actions ⟨[], 0, 0⟩
  simpa [reconstruct, scanActions] using h

/-! ### Claim C7 -/

/-- C7: an unparseable clock string such as `"garbage"` parses to
`{minutes: 0, seconds: 0}` (no error), and in the chart-reconstruction
path an event carrying that clock is placed at elapsed time
`12 * (period - 1)`, the start of its period. -/
theorem C7_malformed_clock :
    parseGameClock ("garbage") = ⟨0, 0⟩ ∧
    ∀ p : ℕ, 1 ≤ p → elapsedOf p (some ("garbage")) = 12 * ((p : ℚ) - 1) := by
  constructor
  · rfl
  · intro p hp
    have hper : effPeriod p = p := by
      unfold effPeriod
      rw [if_neg (by omega : ¬ p = 0)]
    have hclock : clockMinSec (some ("garbage")) = (12, 0) := rfl
    unfold elapsedOf
    rw [hclock, hper]
    push_cast
    ring

/-- C7 witness: the malformed-clock placement at period 3. -/
theorem C7_witness :
    parseGameClock ("garbage") = ⟨0, 0⟩ ∧
    elapsedOf 3 (some ("garbage")) = 12 * ((3 : ℚ) - 1) :=
  ⟨C7_malformed_clock.1, C7_malformed_clock.2 3 (by norm_num)⟩

/-! ### Claim C8 -/

unseal Rat.mul Rat.inv Rat.add Rat.sub in
/-- C8 counterexample: at `boxWidth = 10` the computed column count is -5
and the rasterizer fails (the `new Array(-5)` RangeError, modelled as
`none`) instead of returning a 1-column grid; at `boxWidth = 15` it
returns a 0-column grid, below the claimed minimum of 1 column. -/
theorem C8_cex :
    chartWidthOf 10 48 = -5 ∧
    (rasterize [⟨0, 0, none⟩] 10 48).isNone = true ∧
    (rasterize [⟨0, 0, none⟩] 15 48).map ChartResult.cols = some 0 := by
  decide

/-- C8 amended: the rasterizer returns a grid exactly when the computed
column count is nonnegative (a 0-column grid is possible), with that exact
column count; for a negative computed width the array construction throws
(`none`). -/
theorem C8_width_policy :
    ∀ (series : List Sample) (boxWidth : ℤ) (T : ℕ),
      ((rasterize series boxWidth T).isSome = true ↔
        0 ≤ chartWidthOf boxWidth T) ∧
      ((rasterize series boxWidth T).map ChartResult.cols =
        if 0 ≤ chartWidthOf boxWidth T then some (chartWidthOf boxWidth T)
        else none) := by
  intro series boxWidth T
  unfold rasterize
  by_cases h : chartWidthOf boxWidth T < 0
  · rw [if_pos h]
    constructor
    · simp
      omega
    · rw [if_neg (by omega)]
      simp
  · rw [if_neg h]
    constructor
    · simp
      omega
    · rw [if_pos (by omega)]
      simp

/-! ### Claim C5 -/

unseal Rat.mul Rat.inv Rat.add Rat.sub in
/-- C5: the vertical scale uses interval 4 exactly when the peak absolute
differential exceeds 20 (so 2 for maxAbs = 15, 4 for maxAbs = 25), `yMax`
and `yMin` are the stated ceiling/floor formulas, and they always straddle
zero; e.g. diffs [0, 5, 8] give interval 2, yMin = -2, yMax = 8. -/
theorem C5_scale :
    (∀ ds : List ℤ,
      (intervalOf ds = 4 ↔ 20 < maxAbsOf ds) ∧
      (intervalOf ds = 2 ↔ ¬ 20 < maxAbsOf ds) ∧
      yMaxOf ds =
        ⌈(max (dataMaxOf ds) 1 : ℚ) / (intervalOf ds : ℚ)⌉ * intervalOf ds ∧
      yMinOf ds =
        ⌊(min (dataMinOf ds) (-1) : ℚ) / (intervalOf ds : ℚ)⌋ * intervalOf ds ∧
      0 < yMaxOf ds ∧ yMinOf ds < 0) ∧
    (maxAbsOf [15] = 15 ∧ intervalOf [15] = 2) ∧
    (maxAbsOf [-25] = 25 ∧ intervalOf [-25] = 4) ∧
    (intervalOf [0, 5, 8] = 2 ∧ yMinOf [0, 5, 8] = -2 ∧ yMaxOf [0, 5, 8] = 8) := by
  refine ⟨?_, by decide, by decide, by decide⟩
  intro ds
  refine ⟨?_, ?_, rfl, rfl, yMaxOf_pos ds, yMinOf_neg ds⟩
  · unfold intervalOf
    by_cases h : 20 < maxAbsOf ds
    · rw [if_pos h]; exact iff_of_true rfl h
    · rw [if_neg h]; exact iff_of_false (by norm_num) h
  · unfold intervalOf
    by_cases h : 20 < maxAbsOf ds
    · rw [if_pos h]; exact iff_of_false (by norm_num) (not_not_intro h)
    · rw [if_neg h]; exact iff_of_true rfl h

/-! ### Claim C10 -/

/-- C10: every sample of a series lands on a row strictly inside the grid
computed from that series (the bounds check never rejects a sample for its
row), and the zero-baseline row lies strictly between the top row and the
bottom row. -/
theorem C10_row_bounds :
    ∀ series : List Sample,
      (∀ s ∈ series,
        0 ≤ yOfD (yMaxOf (series.map Sample.diff))
              (intervalOf (series.map Sample.diff)) s.diff ∧
          yOfD (yMaxOf (series.map Sample.diff))
              (intervalOf (series.map Sample.diff)) s.diff <
            chartHeightOf (series.map Sample.diff)) ∧
      0 < yZeroOf (series.map Sample.diff) ∧
      yZeroOf (series.map Sample.diff) <
        chartHeightOf (series.map Sample.diff) - 1 := by
  intro series
  refine ⟨?_, ?_, ?_⟩
  · intro s hs
    exact yOfD_bounds (List.mem_map_of_mem Sample.diff hs)
  · rw [yZeroOf_eq]
    exact yCeil_pos _
  · rw [yZeroOf_eq, chartHeightOf_eq]
    have := yFloor_neg (series.map Sample.diff)
    omega

unseal Rat.mul Rat.inv Rat.add Rat.sub in
/-- C10 witness: the row bounds at a concrete one-sample series. -/
theorem C10_witness :
    0 ≤ yOfD (yMaxOf ([Sample.mk 0 5 none].map Sample.diff))
          (intervalOf ([Sample.mk 0 5 none].map Sample.diff))
          (Sample.mk 0 5 none).diff ∧
      yOfD (yMaxOf ([Sample.mk 0 5 none].map Sample.diff))
          (intervalOf ([Sample.mk 0 5 none].map Sample.diff))
          (Sample.mk 0 5 none).diff <
        chartHeightOf ([Sample.mk 0 5 none].map Sample.diff) :=
  (C10_row_bounds [Sample.mk 0 5 none]).1 (Sample.mk 0 5 none) (by simp)

/-! ### Claim C9 -/

lemma plotOne_apply (rows cols yM i : ℤ) (g : ℤ → ℤ → Char) (s : Sample)
    (r c : ℤ) :
    plotOne rows cols yM i g s r c =
      if 0 ≤ yOfD yM i s.diff ∧ yOfD yM i s.diff < rows ∧
          0 ≤ xOf cols s ∧ xOf cols s < cols then
        (if c = xOf cols s then (if r = yOfD yM i s.diff then circ else ' ')
         else g r c)
      else g r c := by
  unfold plotOne
  by_cases hcond : 0 ≤ yOfD yM i s.diff ∧ yOfD yM i s.diff < rows ∧
      0 ≤ xOf cols s ∧ xOf cols s < cols
  · rw [if_pos hcond, if_pos hcond]
  · rw [if_neg hcond, if_neg hcond]

/-- The character plotting leaves in cell `(r, c)`, as a function of the
last sample mapped to column `c` (`none`: no sample mapped, the underlying
grid shows through). -/
def colCell (g : ℤ → ℤ → Char) (yM i r c : ℤ) : Option Sample → Char
  | some s => if r = yOfD yM i s.diff then circ else ' '
  | none => g r c

lemma space_ne_circ : (' ' : Char) ≠ circ := by decide

lemma plotRun (rows cols yM i c : ℤ) (hc0 : 0 ≤ c) (hcc : c < cols) :
    ∀ (l : List Sample) (g : ℤ → ℤ → Char) (r : ℤ),
      (∀ s ∈ l, xOf cols s = c →
        0 ≤ yOfD yM i s.diff ∧ yOfD yM i s.diff < rows) →
      l.foldl (plotOne rows cols yM i) g r c =
        colCell g yM i r c ((l.filter (fun s => xOf cols s == c)).getLast?) := by
  intro l
  induction l with
  | nil => intro g r _; rfl
  | cons a t ih =>
    intro g r hb
    rw [List.foldl_cons]
    rw [ih (plotOne rows cols yM i g a) r
      (fun s hs hx => hb s (List.mem_cons_of_mem a hs) hx)]
    by_cases hxa : xOf cols a = c
    · have hy := hb a (List.mem_cons_self a t) hxa
      have hplot : plotOne rows cols yM i g a r c =
          if r = yOfD yM i a.diff then circ else ' ' := by
        rw [plotOne_apply]
        rw [if_pos ⟨hy.1, hy.2, hxa ▸ hc0, hxa ▸ hcc⟩]
        rw [if_pos hxa.symm]
      have hfa : (a :: t).filter (fun s => xOf cols s == c) =
          a :: t.filter (fun s => xOf cols s == c) := by
        simp [List.filter_cons, hxa]
      rw [hfa]
      cases hft : t.filter (fun s => xOf cols s == c) with
      | nil =>
        show colCell (plotOne rows cols yM i g a) yM i r c none =
          colCell g yM i r c (some a)
        show plotOne rows cols yM i g a r c =
          if r = yOfD yM i a.diff then circ else ' '
        exact hplot
      | cons b u =>
        rw [List.getLast?_cons_cons]
        cases hbu : (b :: u).getLast? with
        | none => exact absurd hbu (by simp)
        | some s => rfl
    · have hga : plotOne rows cols yM i g a r c = g r c := by
        rw [plotOne_apply]
        by_cases hcond : 0 ≤ yOfD yM i a.diff ∧ yOfD yM i a.diff < rows ∧
            0 ≤ xOf cols a ∧ xOf cols a < cols
        · rw [if_pos hcond, if_neg (fun hc => hxa hc.symm)]
        · rw [if_neg hcond]
      have hfa : (a :: t).filter (fun s => xOf cols s == c) =
          t.filter (fun s => xOf cols s == c) := by
        simp [List.filter_cons, hxa]
      rw [hfa]
      cases hft : t.filter (fun s => xOf cols s == c) with
      | nil =>
        show colCell (plotOne rows cols yM i g a) yM i r c none =
          colCell g yM i r c none
        show plotOne rows cols yM i g a r c = g r c
        exact hga
      | cons b u =>
        cases hbu : (b :: u).getLast? with
        | none => exact absurd hbu (by simp)
        | some s => rfl

/-- C9: in the rasterized grid a chart column holds at most one glyph, and
the glyph present in a column is exactly the one of the last series sample
mapped to that column (earlier samples in the same column are discarded):
the cell `(r, c)` holds the glyph iff the last sample with column `c` has
row `r`. -/
theorem C9_column_last_wins :
    ∀ (series : List Sample) (cols c r : ℤ), 0 ≤ c → c < cols →
      (plotAll (chartHeightOf (series.map Sample.diff)) cols
          (yMaxOf (series.map Sample.diff)) (intervalOf (series.map Sample.diff))
          series r c = circ ↔
        ((series.filter (fun s => xOf cols s == c)).getLast?).map
            (fun s => yOfD (yMaxOf (series.map Sample.diff))
              (intervalOf (series.map Sample.diff)) s.diff) = some r) := by
  intro series cols c r hc0 hcc
  unfold plotAll
  rw [plotRun (chartHeightOf (series.map Sample.diff)) cols
    (yMaxOf (series.map Sample.diff)) (intervalOf (series.map Sample.diff))
    c hc0 hcc series emptyGrid r
    (fun s hs _ => yOfD_bounds (List.mem_map_of_mem Sample.diff hs))]
  cases hft : (series.filter (fun s => xOf cols s == c)).getLast? with
  | none =>
    exact iff_of_false (fun h => space_ne_circ h) (by simp)
  | some s =>
    show (if r = yOfD (yMaxOf (series.map Sample.diff))
        (intervalOf (series.map Sample.diff)) s.diff then circ else ' ') =
        circ ↔ _
    by_cases hr : r = yOfD (yMaxOf (series.map Sample.diff))
        (intervalOf (series.map Sample.diff)) s.diff
    · rw [if_pos hr]
      simp [hr]
    · rw [if_neg hr]
      constructor
      · intro h
        exact absurd h space_ne_circ
      · intro h
        have hy : yOfD (yMaxOf (series.map Sample.diff))
            (intervalOf (series.map Sample.diff)) s.diff = r := by
          simpa using h
        exact absurd hy.symm hr

unseal Rat.mul Rat.inv Rat.add Rat.sub in
/-- C9 witness: two samples collide in column 0 of a 1-column chart; the
glyph sits at the row of the later sample. -/
theorem C9_witness :
    plotAll (chartHeightOf ([Sample.mk 0 1 none, Sample.mk 0 2 none].map Sample.diff))
        1 (yMaxOf ([Sample.mk 0 1 none, Sample.mk 0 2 none].map Sample.diff))
        (intervalOf ([Sample.mk 0 1 none, Sample.mk 0 2 none].map Sample.diff))
        [Sample.mk 0 1 none, Sample.mk 0 2 none] 0 0 = circ :=
  (C9_column_last_wins [Sample.mk 0 1 none, Sample.mk 0 2 none] 1 0 0
    (le_refl 0) (by norm_num)).mpr (by decide)

end NbaScoreCli
